import Mathlib

/-!
Verification development for the magnon Chern-number engine
(`magnon_hamiltonian_sweep.py`): the Bloch Hamiltonian builder, the
plaquette Berry-curvature estimator, the Chern integrator, and the
module-level (D, Bz) parameter sweep, embedded over exact reals.
-/

open scoped Classical

noncomputable section

namespace MagnonSweep

open Real

/-- Module-level constant `J = 1.0`, the Heisenberg exchange energy scale. -/
def J : ℝ := 1

/-- Module-level constant `S = 1`, the spin magnitude. -/
def S : ℝ := 1

/-- `np.dot` on 2-vectors. -/
def dot (u v : ℝ × ℝ) : ℝ := u.1 * v.1 + u.2 * v.2

/-- Honeycomb nearest-neighbour vector `a1 = [1, 0]`. -/
def a1 : ℝ × ℝ := (1, 0)

/-- Honeycomb nearest-neighbour vector `a2 = [-0.5, sqrt(3)/2]`. -/
def a2 : ℝ × ℝ := (-(1/2), Real.sqrt 3 / 2)

/-- Honeycomb nearest-neighbour vector `a3 = [-0.5, -sqrt(3)/2]`. -/
def a3 : ℝ × ℝ := (-(1/2), -(Real.sqrt 3 / 2))

/-- Nearest-neighbour structure factor
`f_k = exp(1j k·a1) + exp(1j k·a2) + exp(1j k·a3)`. -/
def f_k (kx ky : ℝ) : ℂ :=
  Complex.exp (Complex.I * (dot (kx, ky) a1 : ℝ)) +
  Complex.exp (Complex.I * (dot (kx, ky) a2 : ℝ)) +
  Complex.exp (Complex.I * (dot (kx, ky) a3 : ℝ))

/-- Next-nearest-neighbour displacement `b1 = a1 - a2`. -/
def b1 : ℝ × ℝ := (a1.1 - a2.1, a1.2 - a2.2)

/-- Next-nearest-neighbour displacement `b2 = a2 - a3`. -/
def b2 : ℝ × ℝ := (a2.1 - a3.1, a2.2 - a3.2)

/-- Next-nearest-neighbour displacement `b3 = a3 - a1`. -/
def b3 : ℝ × ℝ := (a3.1 - a1.1, a3.2 - a1.2)

/-- DM-induced structure factor
`g_k = sin(k·b1) + sin(k·b2) + sin(k·b3)`. -/
def g_k (kx ky : ℝ) : ℝ :=
  Real.sin (dot (kx, ky) b1) + Real.sin (dot (kx, ky) b2) +
  Real.sin (dot (kx, ky) b3)

/-- The 2x2 Bloch Hamiltonian of `haldane_magnon_hamiltonian(kx, ky, D, Bz)`:
`t = J*S`, `t2 = D*S`, diagonal `Bz*S ± 2*t2*g_k`, off-diagonal `t*f_k` and
its complex conjugate. -/
def haldane_magnon_hamiltonian (kx ky D Bz : ℝ) : Matrix (Fin 2) (Fin 2) ℂ :=
  let t : ℝ := J * S
  let t2 : ℝ := D * S
  let h11 : ℝ := Bz * S + 2 * t2 * g_k kx ky
  let h22 : ℝ := Bz * S - 2 * t2 * g_k kx ky
  let h12 : ℂ := (t : ℂ) * f_k kx ky
  !![(h11 : ℂ), h12; starRingEnd ℂ h12, (h22 : ℂ)]

/-- Band-0 (lower-band) column of `numpy.linalg.eigh` on a 2x2 Hermitian
matrix, in closed form.  `LA.eigh` is library code outside this repository;
this definition realizes its contract for the 2x2 Hermitian case: a unit
eigenvector for the smaller eigenvalue
`lam = (a+b)/2 - sqrt(((a-b)/2)^2 + |c|^2)` (it is `(c, lam - a)`
normalized when `c ≠ 0`, a standard basis vector otherwise).  The overall
phase of the returned vector is an arbitrary gauge, exactly as for LAPACK. -/
def eigvec0 (H : Matrix (Fin 2) (Fin 2) ℂ) : Fin 2 → ℂ :=
  let a := (H 0 0).re
  let b := (H 1 1).re
  let c := H 0 1
  let lam := (a + b) / 2 - Real.sqrt (((a - b) / 2) ^ 2 + Complex.normSq c)
  if c = 0 then (if a ≤ b then ![1, 0] else ![0, 1])
  else
    let n := Real.sqrt (Complex.normSq c + (lam - a) ^ 2)
    ![c / (n : ℂ), ((lam - a : ℝ) : ℂ) / (n : ℂ)]

/-- `np.vdot` on 2-vectors: conjugate the first argument. -/
def vdot (u v : Fin 2 → ℂ) : ℂ :=
  starRingEnd ℂ (u 0) * v 0 + starRingEnd ℂ (u 1) * v 1

/-- The product `U1*U2*U3*U4` of the four U(1) link variables of the
plaquette anchored at `(kx, ky)` with side `dk`, for the lower band:
`U1 = vdot(vec0, vec_x)`, `U2 = vdot(vec_x, vec_xy)`,
`U3 = vdot(vec_xy, vec_y)`, `U4 = vdot(vec_y, vec0)`. -/
def link_product (kx ky D Bz dk : ℝ) : ℂ :=
  let vec0 := eigvec0 (haldane_magnon_hamiltonian kx ky D Bz)
  let vec_x := eigvec0 (haldane_magnon_hamiltonian (kx + dk) ky D Bz)
  let vec_y := eigvec0 (haldane_magnon_hamiltonian kx (ky + dk) D Bz)
  let vec_xy := eigvec0 (haldane_magnon_hamiltonian (kx + dk) (ky + dk) D Bz)
  vdot vec0 vec_x * vdot vec_x vec_xy * vdot vec_xy vec_y * vdot vec_y vec0

/-- `berry_curvature(kx, ky, D, Bz, dk)`:
`F = np.imag(np.log(U1*U2*U3*U4)) / dk**2`.  `Complex.log` matches
`np.log`: its imaginary part is the principal argument in `(-pi, pi]`. -/
def berry_curvature (kx ky D Bz dk : ℝ) : ℝ :=
  (Complex.log (link_product kx ky D Bz dk)).im / dk ^ 2

/-- `np.linspace(a, b, n)`: `n` evenly spaced samples from `a` to `b`
inclusive, i.e. `a + i*(b-a)/(n-1)` for `i = 0, ..., n-1`. -/
def linspace (a b : ℝ) (n : ℕ) : List ℝ :=
  (List.range n).map fun i : ℕ => a + (i : ℝ) * ((b - a) / ((n : ℝ) - 1))

/-- `chern_number(D, Bz, nk)`: sum
`berry_curvature(kx, ky, D, Bz, dk=2*pi/nk) * dk**2` for `kx` in
`kx_vals[:-1]` and `ky` in `ky_vals[:-1]` where
`kx_vals = ky_vals = np.linspace(-pi, pi, nk)`, then divide by `2*pi`. -/
def chern_number (D Bz : ℝ) (nk : ℕ) : ℝ :=
  let kx_vals := linspace (-π) π nk
  let ky_vals := linspace (-π) π nk
  let dk := 2 * π / nk
  let chern := (kx_vals.dropLast.map fun kx =>
    (ky_vals.dropLast.map fun ky => berry_curvature kx ky D Bz dk * dk ^ 2).sum).sum
  chern / (2 * π)

/-- The script's sweep range `D_vals = np.linspace(-2, 2, 25)`. -/
def D_vals : List ℝ := linspace (-2) 2 25

/-- The script's sweep range `Bz_vals = np.linspace(-1, 1, 25)`. -/
def Bz_vals : List ℝ := linspace (-1) 1 25

/-- The module-level parameter sweep, generalized over the two ranges it
iterates: `Chern_grid[i, j] = chern_number(D_vals[i], Bz_vals[j], nk=30)`,
row per `D`, column per `Bz`. -/
def chern_grid (ds bzs : List ℝ) : List (List ℝ) :=
  ds.map fun D => bzs.map fun Bz => chern_number D Bz 30

/-- The script's `Chern_grid`, the sweep applied to its fixed ranges. -/
def Chern_grid : List (List ℝ) := chern_grid D_vals Bz_vals

/-- The nearest-neighbour structure factor as the specification describes
it, the three dot products written out on the honeycomb geometry. -/
def f_spec (kx ky : ℝ) : ℂ :=
  Complex.exp (Complex.I * (kx : ℂ)) +
  Complex.exp (Complex.I * ((-(kx / 2) + Real.sqrt 3 * ky / 2 : ℝ) : ℂ)) +
  Complex.exp (Complex.I * ((-(kx / 2) - Real.sqrt 3 * ky / 2 : ℝ) : ℂ))

/-- The DM structure factor as the specification describes it: the sum of
three sines over the next-nearest-neighbour displacement vectors
`(3/2, -sqrt(3)/2)`, `(0, sqrt(3))`, `(-3/2, -sqrt(3)/2)`. -/
def g_spec (kx ky : ℝ) : ℝ :=
  Real.sin (3 / 2 * kx - Real.sqrt 3 / 2 * ky) + Real.sin (Real.sqrt 3 * ky) +
  Real.sin (-(3 / 2) * kx - Real.sqrt 3 / 2 * ky)

/-- The Bloch Hamiltonian exactly as the specification states it:
`H00 = Bz*S + 2*t2*g`, `H11 = Bz*S - 2*t2*g`, `H01 = t*f`,
`H10 = conj(H01)` with `t = J*S` and `t2 = D*S`. -/
def hamiltonian_spec (kx ky D Bz : ℝ) : Matrix (Fin 2) (Fin 2) ℂ :=
  !![((Bz * S + 2 * (D * S) * g_spec kx ky : ℝ) : ℂ),
     ((J * S : ℝ) : ℂ) * f_spec kx ky;
     starRingEnd ℂ (((J * S : ℝ) : ℂ) * f_spec kx ky),
     ((Bz * S - 2 * (D * S) * g_spec kx ky : ℝ) : ℂ)]

/-- The curvature estimator as the specification describes it: band-0
eigenvectors at the four plaquette corners traversed in the cyclic order
`k -> k+dx -> k+dx+dy -> k+dy -> k`, link variables as inner products of
eigenvectors at adjacent corners, and the imaginary part of the logarithm
of their cyclic product divided by the plaquette area. -/
def plaquette_spec (kx ky D Bz δ : ℝ) : ℝ :=
  let c : Fin 4 → ℝ × ℝ :=
    ![(kx, ky), (kx + δ, ky), (kx + δ, ky + δ), (kx, ky + δ)]
  let v : Fin 4 → (Fin 2 → ℂ) := fun i =>
    eigvec0 (haldane_magnon_hamiltonian (c i).1 (c i).2 D Bz)
  (Complex.log (∏ i : Fin 4, vdot (v i) (v (i + 1)))).im / δ ^ 2

/-- C6 -- For every wavevector and parameters, the Bloch Hamiltonian is
Hermitian: `H[0][1] = conj(H[1][0])` and both diagonal entries are real. -/
theorem hamiltonian_hermitian (kx ky D Bz : ℝ) :
    haldane_magnon_hamiltonian kx ky D Bz 0 1 =
      starRingEnd ℂ (haldane_magnon_hamiltonian kx ky D Bz 1 0) ∧
    (haldane_magnon_hamiltonian kx ky D Bz 0 0).im = 0 ∧
    (haldane_magnon_hamiltonian kx ky D Bz 1 1).im = 0 := by
  refine ⟨?_, ?_, ?_⟩ <;>
    simp [haldane_magnon_hamiltonian]

/-- The source's dot-product form of `g_k` evaluates to the spec's explicit
sine arguments. -/
lemma g_k_eq_g_spec (kx ky : ℝ) : g_k kx ky = g_spec kx ky := by
  unfold g_k g_spec dot b1 b2 b3 a1 a2 a3
  norm_num
  ring_nf

/-- The source's dot-product form of `f_k` evaluates to the spec's explicit
phase arguments. -/
lemma f_k_eq_f_spec (kx ky : ℝ) : f_k kx ky = f_spec kx ky := by
  unfold f_k f_spec dot a1 a2 a3
  norm_num
  ring_nf

/-- C5 -- The Bloch Hamiltonian builder returns exactly the matrix the
specification states: diagonal `Bz*S ± 2*t2*g(k)` with `t2 = D*S`, and
off-diagonal `t*f(k)` with `t = J*S` together with its conjugate. -/
theorem hamiltonian_matches_spec (kx ky D Bz : ℝ) :
    haldane_magnon_hamiltonian kx ky D Bz = hamiltonian_spec kx ky D Bz := by
  unfold haldane_magnon_hamiltonian hamiltonian_spec
  rw [g_k_eq_g_spec, f_k_eq_f_spec]

/-- The plaquette value as a function of the four corner eigenvectors
(in the cyclic order `k, k+dx, k+dx+dy, k+dy`) and the spacing: the
computation `berry_curvature` performs once the Band Solver has produced
the corner vectors. -/
def plaquette (w0 w1 w2 w3 : Fin 2 → ℂ) (δ : ℝ) : ℝ :=
  (Complex.log (vdot w0 w1 * vdot w1 w2 * vdot w2 w3 * vdot w3 w0)).im / δ ^ 2

lemma berry_curvature_eq_plaquette (kx ky D Bz δ : ℝ) :
    berry_curvature kx ky D Bz δ =
      plaquette (eigvec0 (haldane_magnon_hamiltonian kx ky D Bz))
        (eigvec0 (haldane_magnon_hamiltonian (kx + δ) ky D Bz))
        (eigvec0 (haldane_magnon_hamiltonian (kx + δ) (ky + δ) D Bz))
        (eigvec0 (haldane_magnon_hamiltonian kx (ky + δ) D Bz)) δ := rfl

lemma vdot_smul (p q : ℂ) (u v : Fin 2 → ℂ) :
    vdot (p • u) (q • v) = starRingEnd ℂ p * q * vdot u v := by
  simp only [vdot, Pi.smul_apply, smul_eq_mul, map_mul]
  ring

lemma conj_mul_self_of_abs_one (p : ℂ) (hp : Complex.abs p = 1) :
    starRingEnd ℂ p * p = 1 := by
  rw [mul_comm, Complex.mul_conj]
  norm_cast
  rw [Complex.normSq_eq_abs, hp]
  norm_num

/-- C3 -- `berry_curvature` computes exactly the plaquette value the spec
describes: band-0 eigenvectors at the four corners, link variables as
inner products of adjacent corners in the cyclic order
`k -> k+dx -> k+dx+dy -> k+dy -> k`, and the imaginary part of the
logarithm of their product — the principal argument, whose branch lies in
`(-pi, pi]` — divided by `δ^2`. -/
theorem berry_curvature_matches_plaquette_spec (kx ky D Bz δ : ℝ) :
    berry_curvature kx ky D Bz δ = plaquette_spec kx ky D Bz δ ∧
    berry_curvature kx ky D Bz δ =
      Complex.arg (link_product kx ky D Bz δ) / δ ^ 2 ∧
    -π < Complex.arg (link_product kx ky D Bz δ) ∧
    Complex.arg (link_product kx ky D Bz δ) ≤ π := by
  refine ⟨?_, ?_, Complex.neg_pi_lt_arg _, Complex.arg_le_pi _⟩
  · simp only [berry_curvature, link_product, plaquette_spec, Fin.prod_univ_four]
    norm_num
    rfl
  · rw [berry_curvature, Complex.log_im]

/-- C4 -- Gauge invariance: multiplying each of the four band-0
eigenvectors entering the plaquette by its own unit-modulus phase leaves
the curvature value computed by `berry_curvature` unchanged. -/
theorem berry_curvature_gauge_invariant (kx ky D Bz δ : ℝ) (p0 p1 p2 p3 : ℂ)
    (h0 : Complex.abs p0 = 1) (h1 : Complex.abs p1 = 1)
    (h2 : Complex.abs p2 = 1) (h3 : Complex.abs p3 = 1) :
    plaquette (p0 • eigvec0 (haldane_magnon_hamiltonian kx ky D Bz))
      (p1 • eigvec0 (haldane_magnon_hamiltonian (kx + δ) ky D Bz))
      (p2 • eigvec0 (haldane_magnon_hamiltonian (kx + δ) (ky + δ) D Bz))
      (p3 • eigvec0 (haldane_magnon_hamiltonian kx (ky + δ) D Bz)) δ =
      berry_curvature kx ky D Bz δ := by
  rw [berry_curvature_eq_plaquette]
  unfold plaquette
  rw [vdot_smul, vdot_smul, vdot_smul, vdot_smul]
  congr 3
  set U1 := vdot (eigvec0 (haldane_magnon_hamiltonian kx ky D Bz))
    (eigvec0 (haldane_magnon_hamiltonian (kx + δ) ky D Bz))
  set U2 := vdot (eigvec0 (haldane_magnon_hamiltonian (kx + δ) ky D Bz))
    (eigvec0 (haldane_magnon_hamiltonian (kx + δ) (ky + δ) D Bz))
  set U3 := vdot (eigvec0 (haldane_magnon_hamiltonian (kx + δ) (ky + δ) D Bz))
    (eigvec0 (haldane_magnon_hamiltonian kx (ky + δ) D Bz))
  set U4 := vdot (eigvec0 (haldane_magnon_hamiltonian kx (ky + δ) D Bz))
    (eigvec0 (haldane_magnon_hamiltonian kx ky D Bz))
  calc starRingEnd ℂ p0 * p1 * U1 * (starRingEnd ℂ p1 * p2 * U2) *
        (starRingEnd ℂ p2 * p3 * U3) * (starRingEnd ℂ p3 * p0 * U4)
      = (starRingEnd ℂ p0 * p0) * ((starRingEnd ℂ p1 * p1) *
          ((starRingEnd ℂ p2 * p2) * ((starRingEnd ℂ p3 * p3) *
            (U1 * U2 * U3 * U4)))) := by ring
    _ = U1 * U2 * U3 * U4 := by
        rw [conj_mul_self_of_abs_one p0 h0, conj_mul_self_of_abs_one p1 h1,
          conj_mul_self_of_abs_one p2 h2, conj_mul_self_of_abs_one p3 h3]
        ring

/-- Gauge-invariance theorem instantiated at a concrete plaquette and the
trivial unit phases. -/
theorem berry_curvature_gauge_invariant_witness :
    Complex.abs 1 = 1 ∧
    plaquette ((1:ℂ) • eigvec0 (haldane_magnon_hamiltonian 0 0 0 0))
      ((1:ℂ) • eigvec0 (haldane_magnon_hamiltonian (0 + 1) 0 0 0))
      ((1:ℂ) • eigvec0 (haldane_magnon_hamiltonian (0 + 1) (0 + 1) 0 0))
      ((1:ℂ) • eigvec0 (haldane_magnon_hamiltonian 0 (0 + 1) 0 0)) 1 =
      berry_curvature 0 0 0 0 1 :=
  ⟨map_one Complex.abs,
    berry_curvature_gauge_invariant 0 0 0 0 1 1 1 1 1 (map_one _) (map_one _)
      (map_one _) (map_one _)⟩

/-- C10 -- The curvature sample is the principal argument of the link
product divided by `δ^2`, so its magnitude can never exceed `π / δ^2`. -/
theorem berry_curvature_bound (kx ky D Bz δ : ℝ) (hδ : 0 < δ) :
    |berry_curvature kx ky D Bz δ| ≤ π / δ ^ 2 := by
  have h2 : (0:ℝ) < δ ^ 2 := by positivity
  rw [berry_curvature, Complex.log_im, abs_div, abs_of_pos h2]
  have h := Complex.abs_arg_le_pi (link_product kx ky D Bz δ)
  gcongr

/-- Curvature bound instantiated at a concrete plaquette. -/
theorem berry_curvature_bound_witness :
    (0:ℝ) < 1 ∧ |berry_curvature 0 0 0 0 1| ≤ π / 1 ^ 2 :=
  ⟨one_pos, berry_curvature_bound 0 0 0 0 1 one_pos⟩

lemma sum_map_range (f : ℕ → ℝ) (n : ℕ) :
    ((List.range n).map f).sum = ∑ i in Finset.range n, f i := by
  induction n with
  | zero => simp
  | succ n ih =>
      rw [List.range_succ, List.map_append, List.sum_append,
        Finset.sum_range_succ, ih]
      simp

lemma dropLast_map_range {α : Type} (f : ℕ → α) (n : ℕ) :
    ((List.range n).map f).dropLast = (List.range (n - 1)).map f := by
  cases n with
  | zero => simp
  | succ n =>
      rw [List.range_succ, List.map_append]
      simp

/-- C1 (amended) -- What the Chern integrator actually sums: `nk - 1`
iterated wavevectors per axis taken from `np.linspace(-pi, pi, nk)` (grid
step `2*pi/(nk-1)`, the endpoint `pi` dropped), each plaquette evaluated
with spacing `dk = 2*pi/nk` and weighted by `dk^2`, the total divided by
`2*pi`. -/
theorem chern_number_actual_grid (D Bz : ℝ) (nk : ℕ) :
    chern_number D Bz nk =
      (∑ i in Finset.range (nk - 1), ∑ j in Finset.range (nk - 1),
        berry_curvature (-π + i * (2 * π / ((nk : ℝ) - 1)))
          (-π + j * (2 * π / ((nk : ℝ) - 1))) D Bz (2 * π / nk) *
          (2 * π / nk) ^ 2) / (2 * π) := by
  simp only [chern_number, linspace, dropLast_map_range, List.map_map,
    sum_map_range, Function.comp_apply]
  rw [show π - -π = 2 * π by ring]

/-- C1 (counterexample) -- At `nk = 4` the integrator's iterated axis grid
is the three points `-pi + i*(2*pi/3)`, not the four points of step
`2*pi/4` claimed by the spec: the claimed grid has a different size. -/
theorem chern_grid_step_cex :
    (linspace (-π) π 4).dropLast =
      ((List.range 3).map fun i : ℕ => -π + (i : ℝ) * (2 * π / 3)) ∧
    (linspace (-π) π 4).dropLast ≠
      (List.range 4).map fun i : ℕ => -π + (i : ℝ) * (2 * π / 4) := by
  constructor
  · unfold linspace
    rw [dropLast_map_range]
    congr 1
    funext i
    push_cast
    ring_nf
  · intro h
    have hl := congrArg List.length h
    simp only [linspace, List.length_dropLast, List.length_map,
      List.length_range] at hl
    norm_num at hl

/-- C2 (amended) -- With `nk = 1` the integrator's grid degenerates: the
iterated list `np.linspace(-pi, pi, 1)[:-1]` is empty, so `chern_number`
returns `0`; no error of any kind is raised. -/
theorem chern_number_nk_one_eq_zero (D Bz : ℝ) : chern_number D Bz 1 = 0 := by
  simp only [chern_number, linspace, show List.range 1 = [0] from rfl,
    List.map_cons, List.map_nil, List.dropLast_single, List.sum_nil, zero_div]

/-- C2 (counterexample) -- `chern_number(0, 0, nk=1)` returns the value
`0` rather than raising an invalid-configuration error. -/
theorem chern_number_nk_one_cex : chern_number 0 0 1 = 0 := by
  simp only [chern_number, linspace, show List.range 1 = [0] from rfl,
    List.map_cons, List.map_nil, List.dropLast_single, List.sum_nil, zero_div]

/-- C9 (amended) -- The module-level sweep performs no validation: with an
empty D-range it performs no iterations and yields an empty grid, and with
an empty Bz-range every row is empty; no error is raised. -/
theorem scanner_empty_range_eq (ds bzs : List ℝ) :
    chern_grid [] bzs = [] ∧ chern_grid ds [] = ds.map fun _ => [] := by
  exact ⟨rfl, by simp [chern_grid]⟩

/-- C9 (counterexample) -- The sweep applied to an empty D-range returns
normally with an empty grid instead of raising an invalid-configuration
error. -/
theorem scanner_empty_range_cex : chern_grid [] [(0:ℝ)] = [] := rfl

end MagnonSweep
